import Mathlib

/-!
# Verification of libpass-rs core logic

A shallow embedding of the core logic of `libpass-rs` (a Rust library for
interacting with `pass`-managed password stores), together with theorems
checking its natural-language specification.

Modelling conventions:
* Filesystem paths are lists of path segments (`Path := List String`),
  representing absolute paths below an abstract filesystem root.
* The filesystem is an immutable tree (`FsNode`): regular files (whose content
  is modelled as the sequence of text lines the code can read from them),
  directories with a named child list, and `other` nodes (symlinks, devices,
  anything that is neither a regular file nor a directory).
* The external gpgme crypto engine is a parameter (`CryptoEnv` / `SyncEnv`):
  its operations are arbitrary functions returning `Except String _`, whose
  errors the code wraps into `PassError.gpgError` (mirroring the `From` impls
  used by the `?` operator in the Rust source).
* Fallible filesystem steps of `RwPlainFile::sync` (seek, set_len, write_all,
  sync_all) are modelled by success flags in `SyncEnv`; their failure surfaces
  as `PassError.ioError` (the model drops the io error payload).
* Byte buffers (plaintext and ciphertext) are `List Nat`.
-/

namespace LibPass

/-- An absolute filesystem path, as the list of its segments. -/
abbrev Path := List String

/-- A node of the modelled filesystem: a regular file (content modelled as its
line sequence), a directory with named children, or anything else (symlink,
device node, ...). -/
inductive FsNode where
  | file (lines : List String)
  | dir (children : List (String × FsNode))
  | other

/-- Mirror of `PassError` from `src/errors.rs`. The io/gpg error payloads are
reduced to the information the model tracks. -/
inductive PassError where
  | passwordStoreNotFound (path : Path)
  | invalidStoreFormat (path : Path) (reason : String)
  | ambiguousPassName (name : String)
  | entryNotFound (name : String)
  | pathDecodingError (path : Path)
  | ioError
  | gpgError (msg : String)
deriving DecidableEq, Repr

/-- A gpg key handle (mirror of `gpgme::Key`, identified by its id). -/
structure Key where
  id : String
deriving DecidableEq, Repr

/-- Find the child of a directory child-list with the given name. -/
def childNamed (n : String) : List (String × FsNode) → Option FsNode
  | [] => none
  | (m, node) :: rest => if m = n then some node else childNamed n rest

/-- Resolve a path in the filesystem tree. -/
def lookup : FsNode → Path → Option FsNode
  | node, [] => some node
  | FsNode.dir children, seg :: rest =>
    match childNamed seg children with
    | some child => lookup child rest
    | none => none
  | _, _ :: _ => none

/-- `Path::exists()` on the modelled filesystem. -/
def pexists (fs : FsNode) (p : Path) : Bool :=
  (lookup fs p).isSome

/-- `Path::is_file()` on the modelled filesystem. -/
def pis_file (fs : FsNode) (p : Path) : Bool :=
  match lookup fs p with
  | some (FsNode.file _) => true
  | _ => false

/-- `Path::is_dir()` on the modelled filesystem. -/
def pis_dir (fs : FsNode) (p : Path) : Bool :=
  match lookup fs p with
  | some (FsNode.dir _) => true
  | _ => false

/-! ## RwPlainFile synchronization (src/file_io.rs, `RwPlainFile::sync`) -/

/-- The mutable state of an open `RwPlainFile` handle: the on-disk ciphertext
of the underlying file, the user-facing plaintext `buffer`, and the
`last_synced_buffer` backup used for write avoidance. -/
structure SyncState where
  disk : List Nat
  buffer : List Nat
  last_synced_buffer : List Nat
deriving DecidableEq, Repr

/-- Environment for one `sync` call: the crypto engine and the outcome of each
fallible filesystem step. `ctx_ok` is `utils::create_gpg_context()`, `encrypt`
is `gpgme::Context::encrypt`; the flags model whether `seek`, `set_len`,
`write_all` and `sync_all` succeed. -/
structure SyncEnv where
  ctx_ok : Except String Unit
  encrypt : List Key → List Nat → Except String (List Nat)
  seek_ok : Bool
  set_len_ok : Bool
  write_ok : Bool
  sync_all_ok : Bool

/-- `File::set_len` on the modelled byte content: truncate or zero-extend to
the requested length. -/
def setLenBytes (l : List Nat) (n : Nat) : List Nat :=
  l.take n ++ List.replicate (n - l.length) 0

/-- Mirror of `RwPlainFile::sync(force)` from `src/file_io.rs` lines 151-169.

Returns the state of the handle after the call (the struct fields mutate in
place in Rust, so they keep their new values even when an error is returned),
a flag recording whether the ciphertext write to the file was performed, and
the returned error, if any.

The guard is the code's literal condition
`!force && self.last_synced_buffer != self.buffer`. -/
def RwPlainFile.sync (env : SyncEnv) (keys : List Key) (force : Bool) (s : SyncState) :
    SyncState × Bool × Option PassError :=
  if !force && (s.last_synced_buffer != s.buffer) then
    match env.ctx_ok with
    | Except.error e => (s, false, some (PassError.gpgError e))
    | Except.ok _ =>
      match env.encrypt keys s.buffer with
      | Except.error e => (s, false, some (PassError.gpgError e))
      | Except.ok ciphertext =>
        if !env.seek_ok then (s, false, some PassError.ioError)
        else if !env.set_len_ok then (s, false, some PassError.ioError)
        else if !env.write_ok then
          -- set_len already succeeded, so the file was resized before the
          -- failing write
          ({ s with disk := setLenBytes s.disk ciphertext.length }, false,
            some PassError.ioError)
        else
          -- the full ciphertext was written from the start of the file and
          -- last_synced_buffer was updated; sync_all runs afterwards
          let synced : SyncState :=
            { disk := ciphertext, buffer := s.buffer, last_synced_buffer := s.buffer }
          if !env.sync_all_ok then (synced, true, some PassError.ioError)
          else (synced, true, none)
  else
    if !env.sync_all_ok then (s, false, some PassError.ioError)
    else (s, false, none)

/-- A `SyncEnv` in which the crypto engine and every filesystem step succeed;
the engine deterministically encrypts to `[9]`. -/
def envAllOk : SyncEnv :=
  { ctx_ok := Except.ok ()
    encrypt := fun _ _ => Except.ok [9]
    seek_ok := true
    set_len_ok := true
    write_ok := true
    sync_all_ok := true }

/-- A `SyncEnv` in which everything succeeds except the final `sync_all`
flush; the engine deterministically encrypts to `[7]`. -/
def envFlushFail : SyncEnv :=
  { ctx_ok := Except.ok ()
    encrypt := fun _ _ => Except.ok [7]
    seek_ok := true
    set_len_ok := true
    write_ok := true
    sync_all_ok := false }

/-- C1: `synchronize(force = true)` is claimed to always encrypt and rewrite
the file. The code's guard is `!force && self.last_synced_buffer !=
self.buffer`, so with `force = true` the encryption/write branch is *never*
entered: even on a dirty buffer (buffer `[1]`, last synced `[]`) with a fully
functional engine and filesystem, the call only flushes; the ciphertext write
is not performed, the disk bytes and `last_synced_buffer` are unchanged. This
contradicts the claim and the function's own documentation. -/
theorem sync_force_true_never_writes :
    RwPlainFile.sync envAllOk [] true
        { disk := [0], buffer := [1], last_synced_buffer := [] } =
      ({ disk := [0], buffer := [1], last_synced_buffer := [] }, false, none) := by
  decide

/-- C5: with `force = false` and a clean buffer (`buffer = last_synced_buffer`)
`sync` performs no encryption and no ciphertext write: the handle state is
returned unchanged, the write flag is `false`, and the result does not depend
on the engine (the right-hand side mentions no crypto operation). Moreover,
for any starting state, the call immediately following a `sync(false)` (with
no intervening buffer mutation) never performs the ciphertext write. -/
theorem sync_false_write_avoidance (env : SyncEnv) (keys : List Key) (s : SyncState) :
    (s.buffer = s.last_synced_buffer →
      RwPlainFile.sync env keys false s =
        (s, false, if env.sync_all_ok then none else some PassError.ioError)) ∧
    (RwPlainFile.sync env keys false (RwPlainFile.sync env keys false s).1).2.1 = false := by
  constructor
  · intro h
    have hbne : (s.last_synced_buffer != s.buffer) = false := by
      simp [bne, h]
    cases hs : env.sync_all_ok <;>
      simp [RwPlainFile.sync, hbne, hs]
  · cases hd : s.last_synced_buffer != s.buffer with
    | false =>
      cases hs : env.sync_all_ok <;>
        simp [RwPlainFile.sync, hd, hs]
    | true =>
      have hne : s.last_synced_buffer ≠ s.buffer := bne_iff_ne.mp hd
      cases hctx : env.ctx_ok with
      | error e => simp [RwPlainFile.sync, hd, hne, hctx]
      | ok u =>
        cases henc : env.encrypt keys s.buffer with
        | error e => simp [RwPlainFile.sync, hd, hne, hctx, henc]
        | ok ct =>
          cases hseek : env.seek_ok with
          | false => simp [RwPlainFile.sync, hd, hne, hctx, henc, hseek]
          | true =>
            cases hset : env.set_len_ok with
            | false => simp [RwPlainFile.sync, hd, hne, hctx, henc, hseek, hset]
            | true =>
              cases hw : env.write_ok with
              | false =>
                simp [RwPlainFile.sync, hd, hne, hctx, henc, hseek, hset, hw]
              | true =>
                cases hs : env.sync_all_ok <;>
                  simp [RwPlainFile.sync, hd, hne, hctx, henc, hseek, hset, hw,
                    hs, bne]

/-- Witness for `sync_false_write_avoidance` at a concrete clean state. -/
theorem sync_false_write_avoidance_witness :
    RwPlainFile.sync envAllOk [] false
        { disk := [0], buffer := [1], last_synced_buffer := [1] } =
      ({ disk := [0], buffer := [1], last_synced_buffer := [1] }, false, none) := by
  have h := (sync_false_write_avoidance envAllOk []
    { disk := [0], buffer := [1], last_synced_buffer := [1] }).1 (by decide)
  simpa [envAllOk] using h

/-- C6 counterexample: the claim says that whenever a step of `sync` fails the
error is returned with `buffer` *and* `last_synced_buffer` unchanged. But when
the final `sync_all` flush fails after a successful ciphertext write, the call
returns an error although `last_synced_buffer` has already been updated from
`[3]` to the buffer `[2]`. -/
theorem sync_failure_changes_last_synced :
    RwPlainFile.sync envFlushFail [] false
        { disk := [1], buffer := [2], last_synced_buffer := [3] } =
      ({ disk := [7], buffer := [2], last_synced_buffer := [2] }, true,
        some PassError.ioError) ∧
    ([2] : List Nat) ≠ [3] := by
  constructor
  · decide
  · decide

/-- C6 (amended): `sync` never modifies the plaintext buffer; when it returns
an error without having performed the ciphertext write, `buffer` and
`last_synced_buffer` are both unchanged (so a retried synchronize is still
possible); when it returns an error after the write was performed (i.e. only
the final flush failed), `last_synced_buffer` has already been updated to the
current buffer. -/
theorem sync_failure_state (env : SyncEnv) (keys : List Key) (force : Bool)
    (s : SyncState) :
    (RwPlainFile.sync env keys force s).1.buffer = s.buffer ∧
    ((RwPlainFile.sync env keys force s).2.2.isSome = true →
      (RwPlainFile.sync env keys force s).2.1 = false →
      (RwPlainFile.sync env keys force s).1.buffer = s.buffer ∧
      (RwPlainFile.sync env keys force s).1.last_synced_buffer =
        s.last_synced_buffer) ∧
    ((RwPlainFile.sync env keys force s).2.2.isSome = true →
      (RwPlainFile.sync env keys force s).2.1 = true →
      (RwPlainFile.sync env keys force s).1.last_synced_buffer = s.buffer) := by
  cases hd : (!force && (s.last_synced_buffer != s.buffer)) with
  | false =>
    cases hs : env.sync_all_ok <;> simp [RwPlainFile.sync, hd, hs]
  | true =>
    cases hctx : env.ctx_ok with
    | error e => simp [RwPlainFile.sync, hd, hctx]
    | ok u =>
      cases henc : env.encrypt keys s.buffer with
      | error e => simp [RwPlainFile.sync, hd, hctx, henc]
      | ok ct =>
        cases hseek : env.seek_ok with
        | false => simp [RwPlainFile.sync, hd, hctx, henc, hseek]
        | true =>
          cases hset : env.set_len_ok with
          | false => simp [RwPlainFile.sync, hd, hctx, henc, hseek, hset]
          | true =>
            cases hw : env.write_ok with
            | false => simp [RwPlainFile.sync, hd, hctx, henc, hseek, hset, hw]
            | true =>
              cases hs : env.sync_all_ok <;>
                simp [RwPlainFile.sync, hd, hctx, henc, hseek, hset, hw, hs]

/-- Witness for `sync_failure_state`: after the concrete flush-failure run
used as the C6 counterexample, `last_synced_buffer` equals the buffer. -/
theorem sync_failure_state_witness :
    (RwPlainFile.sync envFlushFail [] false
        { disk := [1], buffer := [2], last_synced_buffer := [3] }).1.last_synced_buffer =
      [2] :=
  (sync_failure_state envFlushFail [] false
      { disk := [1], buffer := [2], last_synced_buffer := [3] }).2.2
    (by decide) (by decide)

/-! ## Store entries (src/store_entry.rs) -/

/-- Mirror of `StoreFileRef`: a reference to a secret file, identified by its
absolute path. -/
structure StoreFileRef where
  path : Path
deriving DecidableEq, Repr

/-- Mirror of `StoreEntry`: a directory entry carries the fields of
`StoreDirectoryRef` (path and cached child set) inline. The child set is a
`HashSet` in Rust; it is modelled as a list whose order carries no meaning. -/
inductive StoreEntry where
  | directory (path : Path) (content : List StoreEntry)
  | file (f : StoreFileRef)

/-- Mirror of `StoreDirectoryRef` as a standalone record (the payload of
`StoreEntry::Directory`). -/
structure StoreDirectoryRef where
  path : Path
  content : List StoreEntry

/-- Mirror of `impl PartialEq for StoreDirectoryRef`: equality compares only
the `path` field. -/
def StoreDirectoryRef.eqb (a b : StoreDirectoryRef) : Bool :=
  a.path == b.path

/-- Mirror of `impl Hash for StoreDirectoryRef`: only `self.path` is fed to
the hasher, so for any hasher (modelled as an arbitrary function of the
hashed data) a directory's hash is the hash of its path. -/
def StoreDirectoryRef.hashWith (hasher : Path → Nat) (d : StoreDirectoryRef) : Nat :=
  hasher d.path

/-- C8: equality and hashing of `StoreDirectoryRef` are determined solely by
the path: two directory values with the same path compare equal and hash
identically under every hasher, regardless of their cached child sets, and
two with different paths compare unequal. -/
theorem directory_identity_is_path (hasher : Path → Nat) (a b : StoreDirectoryRef) :
    (a.path = b.path →
      StoreDirectoryRef.eqb a b = true ∧
      a.hashWith hasher = b.hashWith hasher) ∧
    (a.path ≠ b.path → StoreDirectoryRef.eqb a b = false) := by
  constructor
  · intro h
    simp [StoreDirectoryRef.eqb, StoreDirectoryRef.hashWith, h]
  · intro h
    simp [StoreDirectoryRef.eqb, h]

/-- Witness for `directory_identity_is_path`: two directories at path `a`
with different cached child sets are equal and hash alike (here under the
length hasher); a directory at path `b` is unequal to them. -/
theorem directory_identity_is_path_witness :
    StoreDirectoryRef.eqb
        { path := ["a"], content := [StoreEntry.file { path := ["a", "x.gpg"] }] }
        { path := ["a"], content := [] } = true ∧
    StoreDirectoryRef.hashWith List.length
        { path := ["a"], content := [StoreEntry.file { path := ["a", "x.gpg"] }] } =
      StoreDirectoryRef.hashWith List.length { path := ["a"], content := [] } ∧
    StoreDirectoryRef.eqb { path := ["a"], content := [] }
        { path := ["b"], content := [] } = false := by
  refine ⟨?_, ?_, ?_⟩
  · exact ((directory_identity_is_path List.length
      { path := ["a"], content := [StoreEntry.file { path := ["a", "x.gpg"] }] }
      { path := ["a"], content := [] }).1 rfl).1
  · exact ((directory_identity_is_path List.length
      { path := ["a"], content := [StoreEntry.file { path := ["a", "x.gpg"] }] }
      { path := ["a"], content := [] }).1 rfl).2
  · exact (directory_identity_is_path List.length
      { path := ["a"], content := [] } { path := ["b"], content := [] }).2
      (by decide)

/-! ## The flattening directory iterator (src/store_entry.rs,
`StoreDirectoryIter::next` and `StoreDirectoryRef::iter`) -/

mutual

/-- Size of a store entry, used as a termination measure for the iterator. -/
def entrySize : StoreEntry → Nat
  | StoreEntry.file _ => 1
  | StoreEntry.directory _ content => 2 + entriesSize content

/-- Total size of a list of store entries. -/
def entriesSize : List StoreEntry → Nat
  | [] => 0
  | e :: rest => entrySize e + entriesSize rest

end

/-- Every entry has positive size. -/
theorem entrySize_pos (e : StoreEntry) : 0 < entrySize e := by
  cases e <;> simp [entrySize]

/-- Mirror of `StoreDirectoryIter`: the not-yet-visited entries of the current
level and an optional iterator into the subdirectory being traversed. -/
inductive DirIter where
  | mk (entries : List StoreEntry) (current_dir : Option DirIter)

/-- Termination measure for the iterator state machine. -/
def iterSize : DirIter → Nat
  | DirIter.mk es none => entriesSize es
  | DirIter.mk es (some it) => entriesSize es + 1 + iterSize it

/-- Mirror of `StoreDirectoryRef::iter`: start iterating at the child set with
no subdirectory iterator. -/
def StoreDirectoryRef.iter (d : StoreDirectoryRef) : DirIter :=
  DirIter.mk d.content none

/-- Mirror of `impl Iterator for StoreDirectoryIter`: drain the subdirectory
iterator first; at the current level, yield files directly and descend into
directories without yielding them. -/
def DirIter.next : DirIter → Option (StoreEntry × DirIter)
  | DirIter.mk entries (some it) =>
    match DirIter.next it with
    | some (e, it') => some (e, DirIter.mk entries (some it'))
    | none => DirIter.next (DirIter.mk entries none)
  | DirIter.mk [] none => none
  | DirIter.mk (e :: rest) none =>
    match e with
    | StoreEntry.file _ => some (e, DirIter.mk rest none)
    | StoreEntry.directory _ content =>
      DirIter.next (DirIter.mk rest (some (DirIter.mk content none)))
termination_by it => iterSize it
decreasing_by all_goals
  first
  | omega
  | (simp [iterSize, entriesSize, entrySize]; omega)
  | (simp [iterSize, entriesSize, entrySize]; exact entrySize_pos _)
  | simp [iterSize, entriesSize, entrySize]

/-- Run the iterator with the given amount of fuel, collecting every yielded
entry. `iterSize it + 1` fuel provably drains the iterator. -/
def collectFuel : Nat → DirIter → List StoreEntry
  | 0, _ => []
  | Nat.succ n, it =>
    match DirIter.next it with
    | none => []
    | some (e, it') => e :: collectFuel n it'

/-- All entries yielded by the iterator until `next` returns `none`. -/
def DirIter.collect (it : DirIter) : List StoreEntry :=
  collectFuel (iterSize it + 1) it

/-- The files of a subtree, in depth-first order: what the flattening iterator
is expected to yield. -/
def flatFiles : List StoreEntry → List StoreEntry
  | [] => []
  | StoreEntry.file f :: rest => StoreEntry.file f :: flatFiles rest
  | StoreEntry.directory _ content :: rest => flatFiles content ++ flatFiles rest
termination_by l => entriesSize l
decreasing_by all_goals
  first
  | omega
  | (simp [entriesSize, entrySize]; omega)
  | (simp [entriesSize, entrySize]; exact entrySize_pos _)
  | simp [entriesSize, entrySize]

/-- What the iterator state denotes: the pending subdirectory's yield followed
by the files below the remaining entries. -/
def specIter : DirIter → List StoreEntry
  | DirIter.mk es none => flatFiles es
  | DirIter.mk es (some it) => specIter it ++ flatFiles es
termination_by it => iterSize it
decreasing_by all_goals
  first
  | omega
  | (simp [iterSize, entriesSize, entrySize]; omega)
  | (simp [iterSize, entriesSize, entrySize]; exact entrySize_pos _)
  | simp [iterSize, entriesSize, entrySize]

/-- Membership anywhere in a subtree (an entry of the list itself or of any
nested directory's child set). -/
def InTree (e : StoreEntry) : List StoreEntry → Prop
  | [] => False
  | x :: rest =>
    e = x ∨
    (match x with
     | StoreEntry.directory _ c => InTree e c
     | StoreEntry.file _ => False) ∨
    InTree e rest
termination_by l => entriesSize l
decreasing_by all_goals
  first
  | omega
  | (simp [entriesSize, entrySize]; omega)
  | (simp [entriesSize, entrySize]; exact entrySize_pos _)
  | simp [entriesSize, entrySize]

theorem next_some (es : List StoreEntry) (it0 : DirIter) :
    DirIter.next (DirIter.mk es (some it0)) =
      match DirIter.next it0 with
      | some (e, it') => some (e, DirIter.mk es (some it'))
      | none => DirIter.next (DirIter.mk es none) := by
  rw [DirIter.next]

theorem next_nil : DirIter.next (DirIter.mk [] none) = none := by
  rw [DirIter.next]

theorem next_file (f : StoreFileRef) (rest : List StoreEntry) :
    DirIter.next (DirIter.mk (StoreEntry.file f :: rest) none) =
      some (StoreEntry.file f, DirIter.mk rest none) := by
  rw [DirIter.next]

theorem next_dir (p : Path) (c rest : List StoreEntry) :
    DirIter.next (DirIter.mk (StoreEntry.directory p c :: rest) none) =
      DirIter.next (DirIter.mk rest (some (DirIter.mk c none))) := by
  simp only [DirIter.next]

theorem specIter_none (es : List StoreEntry) :
    specIter (DirIter.mk es none) = flatFiles es := by
  rw [specIter]

theorem specIter_some (es : List StoreEntry) (it : DirIter) :
    specIter (DirIter.mk es (some it)) = specIter it ++ flatFiles es := by
  rw [specIter]

theorem flatFiles_nil : flatFiles [] = [] := by
  rw [flatFiles]

theorem flatFiles_file (f : StoreFileRef) (rest : List StoreEntry) :
    flatFiles (StoreEntry.file f :: rest) = StoreEntry.file f :: flatFiles rest := by
  rw [flatFiles]

theorem flatFiles_dir (p : Path) (c rest : List StoreEntry) :
    flatFiles (StoreEntry.directory p c :: rest) = flatFiles c ++ flatFiles rest := by
  rw [flatFiles]

theorem InTree_nil (e : StoreEntry) : ¬ InTree e [] := by
  rw [InTree]
  exact id

theorem InTree_cons_file (e : StoreEntry) (f : StoreFileRef) (rest : List StoreEntry) :
    InTree e (StoreEntry.file f :: rest) ↔ e = StoreEntry.file f ∨ InTree e rest := by
  rw [InTree]
  simp

theorem InTree_cons_dir (e : StoreEntry) (p : Path) (c rest : List StoreEntry) :
    InTree e (StoreEntry.directory p c :: rest) ↔
      e = StoreEntry.directory p c ∨ InTree e c ∨ InTree e rest := by
  rw [InTree]

/-- The value denoted by an iterator state steps along with `next`: a `none`
step means the denotation is exhausted, a `some` step peels off exactly the
yielded entry. -/
theorem specIter_next_aux (n : Nat) :
    ∀ it : DirIter, iterSize it ≤ n →
      (DirIter.next it = none → specIter it = []) ∧
      (∀ e it', DirIter.next it = some (e, it') →
        specIter it = e :: specIter it') := by
  induction n with
  | zero =>
    intro it h
    obtain ⟨es, cur⟩ := it
    cases cur with
    | some it0 =>
      exfalso
      simp [iterSize] at h
    | none =>
      cases es with
      | nil =>
        refine ⟨fun _ => by simp [specIter_none, flatFiles_nil], fun e it' h' => ?_⟩
        rw [next_nil] at h'
        exact Option.noConfusion h'
      | cons x rest =>
        exfalso
        have := entrySize_pos x
        simp [iterSize, entriesSize] at h
        omega
  | succ n ih =>
    intro it h
    obtain ⟨es, cur⟩ := it
    cases cur with
    | some it0 =>
      have hit0 : iterSize it0 ≤ n := by
        simp [iterSize] at h
        omega
      cases hn : DirIter.next it0 with
      | some pr =>
        obtain ⟨e, it1⟩ := pr
        have h0 := (ih it0 hit0).2 e it1 hn
        constructor
        · intro hnone
          rw [next_some, hn] at hnone
          exact Option.noConfusion hnone
        · intro e' it' h'
          rw [next_some, hn] at h'
          obtain ⟨rfl, rfl⟩ := Prod.mk.injEq .. ▸ Option.some.injEq .. ▸ h'
          simp [specIter_some, h0]
      | none =>
        have h0 := (ih it0 hit0).1 hn
        have hrest : iterSize (DirIter.mk es none) ≤ n := by
          simp [iterSize] at h ⊢
          omega
        have hrec := ih (DirIter.mk es none) hrest
        constructor
        · intro hnone
          rw [next_some, hn] at hnone
          have := hrec.1 hnone
          rw [specIter_none] at this
          simp [specIter_some, h0, this]
        · intro e' it' h'
          rw [next_some, hn] at h'
          have := hrec.2 e' it' h'
          rw [specIter_none] at this
          simp [specIter_some, h0, this]
    | none =>
      cases es with
      | nil =>
        refine ⟨fun _ => by simp [specIter_none, flatFiles_nil], fun e it' h' => ?_⟩
        rw [next_nil] at h'
        exact Option.noConfusion h'
      | cons x rest =>
        cases x with
        | file f =>
          constructor
          · intro h'
            rw [next_file] at h'
            exact Option.noConfusion h'
          · intro e' it' h'
            rw [next_file] at h'
            obtain ⟨rfl, rfl⟩ := Prod.mk.injEq .. ▸ Option.some.injEq .. ▸ h'
            simp [specIter_none, flatFiles_file]
        | directory p c =>
          have hsub : iterSize (DirIter.mk rest (some (DirIter.mk c none))) ≤ n := by
            simp [iterSize, entriesSize, entrySize] at h ⊢
            omega
          have hrec := ih (DirIter.mk rest (some (DirIter.mk c none))) hsub
          constructor
          · intro h'
            rw [next_dir] at h'
            have := hrec.1 h'
            rw [specIter_some, specIter_none] at this
            rw [specIter_none, flatFiles_dir]
            exact this
          · intro e' it' h'
            rw [next_dir] at h'
            have := hrec.2 e' it' h'
            rw [specIter_some, specIter_none] at this
            rw [specIter_none, flatFiles_dir]
            exact this

/-- A successful `next` step strictly shrinks the iterator measure. -/
theorem next_iterSize_aux (n : Nat) :
    ∀ it : DirIter, iterSize it ≤ n → ∀ e it',
      DirIter.next it = some (e, it') → iterSize it' < iterSize it := by
  induction n with
  | zero =>
    intro it h e it' h'
    obtain ⟨es, cur⟩ := it
    cases cur with
    | some it0 => simp [iterSize] at h
    | none =>
      cases es with
      | nil =>
        rw [next_nil] at h'
        exact Option.noConfusion h'
      | cons x rest =>
        exfalso
        have := entrySize_pos x
        simp [iterSize, entriesSize] at h
        omega
  | succ n ih =>
    intro it h e it' h'
    obtain ⟨es, cur⟩ := it
    cases cur with
    | some it0 =>
      have hit0 : iterSize it0 ≤ n := by
        simp [iterSize] at h
        omega
      cases hn : DirIter.next it0 with
      | some pr =>
        obtain ⟨e0, it1⟩ := pr
        rw [next_some, hn] at h'
        obtain ⟨rfl, rfl⟩ := Prod.mk.injEq .. ▸ Option.some.injEq .. ▸ h'
        have := ih it0 hit0 e0 it1 hn
        simp [iterSize]
        omega
      | none =>
        rw [next_some, hn] at h'
        have hrest : iterSize (DirIter.mk es none) ≤ n := by
          simp [iterSize] at h ⊢
          omega
        have := ih (DirIter.mk es none) hrest e it' h'
        simp [iterSize] at this ⊢
        omega
    | none =>
      cases es with
      | nil =>
        rw [next_nil] at h'
        exact Option.noConfusion h'
      | cons x rest =>
        cases x with
        | file f =>
          rw [next_file] at h'
          obtain ⟨rfl, rfl⟩ := Prod.mk.injEq .. ▸ Option.some.injEq .. ▸ h'
          simp [iterSize, entriesSize, entrySize]
        | directory p c =>
          rw [next_dir] at h'
          have hsub : iterSize (DirIter.mk rest (some (DirIter.mk c none))) ≤ n := by
            simp [iterSize, entriesSize, entrySize] at h ⊢
            omega
          have := ih (DirIter.mk rest (some (DirIter.mk c none))) hsub e it' h'
          simp [iterSize, entriesSize, entrySize] at this ⊢
          omega

theorem next_iterSize (it : DirIter) (e : StoreEntry) (it' : DirIter)
    (h : DirIter.next it = some (e, it')) : iterSize it' < iterSize it :=
  next_iterSize_aux (iterSize it) it le_rfl e it' h

/-- With enough fuel, running the iterator collects exactly its denotation. -/
theorem collectFuel_eq_specIter :
    ∀ (n : Nat) (it : DirIter), iterSize it < n → collectFuel n it = specIter it := by
  intro n
  induction n with
  | zero =>
    intro it h
    exact absurd h (Nat.not_lt_zero _)
  | succ n ih =>
    intro it h
    cases hn : DirIter.next it with
    | none =>
      have hs := (specIter_next_aux (iterSize it) it le_rfl).1 hn
      simp [collectFuel, hn, hs]
    | some pr =>
      obtain ⟨e, it'⟩ := pr
      have hspec := (specIter_next_aux (iterSize it) it le_rfl).2 e it' hn
      have hih := ih it'
        (lt_of_lt_of_le (next_iterSize it e it' hn) (Nat.lt_succ_iff.mp h))
      simp [collectFuel, hn, hih, hspec]

theorem collect_eq_specIter (it : DirIter) : DirIter.collect it = specIter it :=
  collectFuel_eq_specIter _ it (Nat.lt_succ_self _)

/-- `flatFiles l` contains exactly the file entries living anywhere below `l`. -/
theorem mem_flatFiles_aux (n : Nat) :
    ∀ l : List StoreEntry, entriesSize l ≤ n → ∀ e : StoreEntry,
      (e ∈ flatFiles l ↔ (∃ f, e = StoreEntry.file f) ∧ InTree e l) := by
  induction n with
  | zero =>
    intro l h e
    cases l with
    | nil => simp [flatFiles_nil, InTree_nil]
    | cons x rest =>
      exfalso
      have := entrySize_pos x
      simp [entriesSize] at h
      omega
  | succ n ih =>
    intro l h e
    cases l with
    | nil => simp [flatFiles_nil, InTree_nil]
    | cons x rest =>
      have hrest : entriesSize rest ≤ n := by
        have := entrySize_pos x
        simp [entriesSize] at h
        omega
      cases x with
      | file f =>
        rw [flatFiles_file, InTree_cons_file]
        simp only [List.mem_cons]
        have hr := ih rest hrest e
        constructor
        · rintro (rfl | hm)
          · exact ⟨⟨f, rfl⟩, Or.inl rfl⟩
          · obtain ⟨hf, ht⟩ := hr.mp hm
            exact ⟨hf, Or.inr ht⟩
        · rintro ⟨hf, (rfl | ht)⟩
          · exact Or.inl rfl
          · exact Or.inr (hr.mpr ⟨hf, ht⟩)
      | directory p c =>
        have hc : entriesSize c ≤ n := by
          simp [entriesSize, entrySize] at h
          omega
        rw [flatFiles_dir, InTree_cons_dir]
        simp only [List.mem_append]
        have hr := ih rest hrest e
        have hcc := ih c hc e
        constructor
        · rintro (hm | hm)
          · obtain ⟨hf, ht⟩ := hcc.mp hm
            exact ⟨hf, Or.inr (Or.inl ht)⟩
          · obtain ⟨hf, ht⟩ := hr.mp hm
            exact ⟨hf, Or.inr (Or.inr ht)⟩
        · rintro ⟨hf, (rfl | ht | ht)⟩
          · obtain ⟨f', hff⟩ := hf
            exact StoreEntry.noConfusion hff
          · exact Or.inl (hcc.mpr ⟨hf, ht⟩)
          · exact Or.inr (hr.mpr ⟨hf, ht⟩)

/-- C9: the flattening iterator obtained from `StoreDirectoryRef::iter` yields
exactly the File entries contained anywhere in the directory's subtree and
never yields a Directory entry. -/
theorem iter_yields_exactly_subtree_files (d : StoreDirectoryRef) (e : StoreEntry) :
    e ∈ DirIter.collect (StoreDirectoryRef.iter d) ↔
      (∃ f, e = StoreEntry.file f) ∧ InTree e d.content := by
  rw [StoreDirectoryRef.iter, collect_eq_specIter, specIter_none]
  exact mem_flatFiles_aux (entriesSize d.content) d.content le_rfl e

/-! ## Path extensions (Rust `Path::extension`) -/

/-- Split a character list at its last `'.'`: returns the parts before and
after that dot, or `none` when there is no dot. -/
def lastDotSplit : List Char → Option (List Char × List Char)
  | [] => none
  | c :: rest =>
    match lastDotSplit rest with
    | some (b, a) => some (c :: b, a)
    | none => if c = '.' then some ([], rest) else none

/-- Mirror of Rust `Path::extension` on a file name: the portion after the
last dot, except that a file name with no dot, or whose only dot is its
leading character, has no extension. -/
def rustExtension (fname : String) : Option String :=
  match lastDotSplit fname.data with
  | none => none
  | some ([], _) => none
  | some (_ :: _, a) => some (String.mk a)

/-- Extension of a path: `Path::extension` applied to its file name (last
segment). -/
def pathExtension (p : Path) : Option String :=
  match p.getLast? with
  | none => none
  | some fname => rustExtension fname

/-! ## Recursive listing (src/lib.rs, `list_and_map_folder`) -/

/-- `FileType::is_file()` of a filesystem node. -/
def isFileNode : FsNode → Bool
  | FsNode.file _ => true
  | _ => false

mutual

/-- Termination measure for the listing recursion: size of a node. -/
def fsNodeSize : FsNode → Nat
  | FsNode.file _ => 1
  | FsNode.dir children => 1 + fsChildrenSize children
  | FsNode.other => 1

def fsChildrenSize : List (String × FsNode) → Nat
  | [] => 0
  | (_, node) :: rest => 1 + fsNodeSize node + fsChildrenSize rest

end

theorem fsChildrenSize_filter_le (p : String × FsNode → Bool) :
    ∀ l : List (String × FsNode), fsChildrenSize (l.filter p) ≤ fsChildrenSize l := by
  intro l
  induction l with
  | nil => simp [fsChildrenSize]
  | cons x rest ih =>
    obtain ⟨n, node⟩ := x
    by_cases hp : p (n, node)
    · simp [List.filter_cons, hp, fsChildrenSize]
      omega
    · simp [List.filter_cons, hp, fsChildrenSize]
      omega

/-- The retention filter of `list_and_map_folder`, literally
`file_type.is_file() && file_extension == "gpg" || !file_type.is_file()`
(with the extension defaulted to `""` when absent). -/
def keep_child (c : String × FsNode) : Bool :=
  (isFileNode c.2 && ((rustExtension c.1).getD "" == "gpg")) || !isFileNode c.2

/-- The exact reason string used by `list_and_map_folder` for a child that is
neither a regular file nor a directory. -/
def notFileNotDirMsg : String :=
  "File is neither a string nor directory but pass stores can only contain those types of files"

mutual

/-- The mapping stage of `list_and_map_folder`: wrap retained regular files as
File entries, recurse into directories (propagating any inner error
unchanged), and fail with `InvalidStoreFormat` on anything else. Errors abort
the whole traversal at the first failing child (the Rust `collect` over
`Result`s). -/
def map_children (base : Path) : List (String × FsNode) → Except PassError (List StoreEntry)
  | [] => Except.ok []
  | (n, node) :: rest =>
    match node with
    | FsNode.file _ =>
      match map_children base rest with
      | Except.error e => Except.error e
      | Except.ok rs => Except.ok (StoreEntry.file { path := base ++ [n] } :: rs)
    | FsNode.dir children =>
      match list_folder_children (base ++ [n]) children with
      | Except.error e => Except.error e
      | Except.ok content =>
        match map_children base rest with
        | Except.error e => Except.error e
        | Except.ok rs => Except.ok (StoreEntry.directory (base ++ [n]) content :: rs)
    | FsNode.other =>
      Except.error (PassError.invalidStoreFormat (base ++ [n]) notFileNotDirMsg)
termination_by l => (fsChildrenSize l, 0)
decreasing_by all_goals
  apply Prod.Lex.left
  try simp [fsChildrenSize, fsNodeSize]
  try omega

/-- Mirror of `list_and_map_folder` on an already-read child list: filter out
regular files without the `.gpg` extension, then map/recurse. -/
def list_folder_children (base : Path) (children : List (String × FsNode)) :
    Except PassError (List StoreEntry) :=
  map_children base (children.filter keep_child)
termination_by (fsChildrenSize children, 1)
decreasing_by
  · have := fsChildrenSize_filter_le keep_child children
    rcases Nat.lt_or_ge (fsChildrenSize (children.filter keep_child))
        (fsChildrenSize children) with hlt | hge
    · exact Prod.Lex.left _ _ hlt
    · have heq : fsChildrenSize (children.filter keep_child) = fsChildrenSize children := by
        omega
      rw [heq]
      exact Prod.Lex.right _ (by omega)

end

/-- `fs::read_dir`: the child list of a directory node; fails with an io error
on anything that is not a directory. -/
def read_dir (fs : FsNode) (p : Path) : Except PassError (List (String × FsNode)) :=
  match lookup fs p with
  | some (FsNode.dir children) => Except.ok children
  | _ => Except.error PassError.ioError

/-- Mirror of `list_and_map_folder(path)` from src/lib.rs: enumerate the
children of `path` and classify them. -/
def list_and_map_folder (fs : FsNode) (p : Path) : Except PassError (List StoreEntry) :=
  match read_dir fs p with
  | Except.error e => Except.error e
  | Except.ok children => list_folder_children p children

theorem map_children_nil (base : Path) : map_children base [] = Except.ok [] := by
  rw [map_children]

theorem map_children_file (base : Path) (n : String) (lines : List String)
    (rest : List (String × FsNode)) :
    map_children base ((n, FsNode.file lines) :: rest) =
      match map_children base rest with
      | Except.error e => Except.error e
      | Except.ok rs => Except.ok (StoreEntry.file { path := base ++ [n] } :: rs) := by
  rw [map_children]

theorem map_children_dir (base : Path) (n : String) (children rest : List (String × FsNode)) :
    map_children base ((n, FsNode.dir children) :: rest) =
      match list_folder_children (base ++ [n]) children with
      | Except.error e => Except.error e
      | Except.ok content =>
        match map_children base rest with
        | Except.error e => Except.error e
        | Except.ok rs => Except.ok (StoreEntry.directory (base ++ [n]) content :: rs) := by
  rw [map_children]

theorem map_children_other (base : Path) (n : String) (rest : List (String × FsNode)) :
    map_children base ((n, FsNode.other) :: rest) =
      Except.error (PassError.invalidStoreFormat (base ++ [n]) notFileNotDirMsg) := by
  rw [map_children]

theorem list_folder_children_def (base : Path) (children : List (String × FsNode)) :
    list_folder_children base children = map_children base (children.filter keep_child) := by
  rw [list_folder_children]

/-- Mapping distributes over appended child lists, with the first error
winning. -/
theorem map_children_append (base : Path) :
    ∀ l1 l2 : List (String × FsNode), map_children base (l1 ++ l2) =
      match map_children base l1 with
      | Except.error e => Except.error e
      | Except.ok v1 =>
        match map_children base l2 with
        | Except.error e => Except.error e
        | Except.ok v2 => Except.ok (v1 ++ v2) := by
  intro l1
  induction l1 with
  | nil =>
    intro l2
    rw [List.nil_append, map_children_nil]
    cases h2 : map_children base l2 <;> simp
  | cons x rest ih =>
    intro l2
    obtain ⟨n, node⟩ := x
    cases node with
    | file lines =>
      rw [List.cons_append, map_children_file, map_children_file, ih l2]
      cases h1 : map_children base rest with
      | error e => simp
      | ok v1 => cases h2 : map_children base l2 <;> simp
    | dir children =>
      rw [List.cons_append, map_children_dir, map_children_dir, ih l2]
      cases hc : list_folder_children (base ++ [n]) children with
      | error e => simp
      | ok content =>
        cases h1 : map_children base rest with
        | error e => simp
        | ok v1 => cases h2 : map_children base l2 <;> simp
    | other =>
      rw [List.cons_append, map_children_other, map_children_other]

/-- C7: recursive listing aborts entirely on the first error, never returning
a partial result (the return type is all-or-nothing). If the children listed
before position `k` are well-formed, then: a child at `k` that is neither a
regular file nor a directory makes the whole listing fail with
`InvalidStoreFormat` for that child's path, and a directory child at `k`
whose own listing fails makes the whole listing fail with that same inner
error, unchanged. -/
theorem listing_aborts_on_first_error (base : Path) (pre rest : List (String × FsNode))
    (v : List StoreEntry) (n n' : String) (ch : List (String × FsNode)) (e : PassError) :
    (list_folder_children base pre = Except.ok v →
      list_folder_children base (pre ++ (n, FsNode.other) :: rest) =
        Except.error (PassError.invalidStoreFormat (base ++ [n]) notFileNotDirMsg)) ∧
    (list_folder_children base pre = Except.ok v →
      list_folder_children (base ++ [n']) ch = Except.error e →
      list_folder_children base (pre ++ (n', FsNode.dir ch) :: rest) = Except.error e) := by
  constructor
  · intro hpre
    rw [list_folder_children_def] at hpre ⊢
    rw [List.filter_append]
    have hkeep : keep_child (n, FsNode.other) = true := rfl
    simp only [List.filter_cons, hkeep, if_true]
    rw [map_children_append, hpre, map_children_other]
  · intro hpre hch
    rw [list_folder_children_def] at hpre ⊢
    rw [List.filter_append]
    have hkeep : keep_child (n', FsNode.dir ch) = true := rfl
    simp only [List.filter_cons, hkeep, if_true]
    rw [map_children_append, hpre, map_children_dir, hch]

/-- Witness for `listing_aborts_on_first_error`: after one well-formed secret
file, a device-node child aborts the listing with `InvalidStoreFormat` for its
path, and a subdirectory containing a device node aborts the listing with the
inner error, unchanged. -/
theorem listing_aborts_on_first_error_witness :
    list_folder_children [] ([("a.gpg", FsNode.file [])] ++ [("dev", FsNode.other)]) =
      Except.error (PassError.invalidStoreFormat ["dev"] notFileNotDirMsg) ∧
    list_folder_children []
        ([("a.gpg", FsNode.file [])] ++ [("sub", FsNode.dir [("x", FsNode.other)])]) =
      Except.error (PassError.invalidStoreFormat ["sub", "x"] notFileNotDirMsg) := by
  have hpre : list_folder_children [] [("a.gpg", FsNode.file [])] =
      Except.ok [StoreEntry.file { path := ["a.gpg"] }] := by
    rw [list_folder_children_def]
    have hkeep : keep_child ("a.gpg", FsNode.file []) = true := rfl
    simp only [List.filter_cons, hkeep, if_true, List.filter_nil]
    rw [map_children_file, map_children_nil]
    simp
  constructor
  · exact (listing_aborts_on_first_error [] [("a.gpg", FsNode.file [])] []
      [StoreEntry.file { path := ["a.gpg"] }] "dev" "z" [] PassError.ioError).1 hpre
  · refine (listing_aborts_on_first_error [] [("a.gpg", FsNode.file [])] []
      [StoreEntry.file { path := ["a.gpg"] }] "z" "sub" [("x", FsNode.other)]
      (PassError.invalidStoreFormat ["sub", "x"] notFileNotDirMsg)).2 hpre ?_
    rw [list_folder_children_def]
    have hkeep : keep_child ("x", FsNode.other) = true := rfl
    simp only [List.filter_cons, hkeep, if_true, List.filter_nil]
    rw [map_children_other]
    simp

/-! ## Encryption key resolution (src/store_entry.rs,
`StoreFileRef::encryption_keys`) -/

/-- The crypto-engine operations used by key resolution:
`utils::create_gpg_context()` and `gpgme::Context::get_key`. -/
structure CryptoEnv where
  ctx_ok : Except String Unit
  get_key : String → Except String Key

/-- The reason string for a directory-shaped `.gpg-id`. -/
def gpgIdIsDirMsg : String :=
  "Path is a directory but should be a file containing encryption key ids"

/-- The reason string when the walk reaches the filesystem root (typo kept
from the source). -/
def noParentMsg : String :=
  "Path does not hava a parent but a .gpg-id file has not yet been found"

/-- Mirror of the inner `look_for_keys_file_from_dir` of
`StoreFileRef::encryption_keys`: starting at `path`, return `path/.gpg-id` if
it exists and is a regular file, fail with `InvalidStoreFormat` if it exists
but is not a regular file, and otherwise recurse into the parent directory,
failing when the filesystem root is passed without a find. -/
def look_for_keys_file_from_dir (fs : FsNode) (path : Path) : Except PassError Path :=
  match lookup fs (path ++ [".gpg-id"]) with
  | some (FsNode.file _) => Except.ok (path ++ [".gpg-id"])
  | some _ =>
    -- `.gpg-id` exists but `is_file()` is false
    Except.error (PassError.invalidStoreFormat (path ++ [".gpg-id"]) gpgIdIsDirMsg)
  | none =>
    match hp : path with
    | [] => Except.error (PassError.invalidStoreFormat [] noParentMsg)
    | _ :: _ => look_for_keys_file_from_dir fs path.dropLast
termination_by path.length
decreasing_by all_goals
  simp_all [List.length_dropLast]
  try omega

/-- `Ok(gpg_ctx.get_key(line)?)`: resolve one manifest line through the
engine, wrapping engine errors as `GpgError`. -/
def resolveLine (env : CryptoEnv) (line : String) : Except PassError Key :=
  match env.get_key line with
  | Except.error e => Except.error (PassError.gpgError e)
  | Except.ok k => Except.ok k

/-- Mirror of `StoreFileRef::encryption_keys`: find the nearest `.gpg-id`
manifest starting from the file's parent directory, then resolve every line
of it, in order, through the engine (the Rust `lines()` iterator is modelled
by the stored line list of the file node). -/
def StoreFileRef.encryption_keys (fs : FsNode) (env : CryptoEnv) (f : StoreFileRef) :
    Except PassError (List Key) :=
  match f.path with
  | [] =>
    Except.error (PassError.invalidStoreFormat f.path
      "File does not have a parent which means it is not contained in a password store")
  | _ :: _ =>
    match look_for_keys_file_from_dir fs f.path.dropLast with
    | Except.error e => Except.error e
    | Except.ok keys_path =>
      match env.ctx_ok with
      | Except.error e => Except.error (PassError.gpgError e)
      | Except.ok _ =>
        match lookup fs keys_path with
        | some (FsNode.file ls) => ls.mapM (resolveLine env)
        | _ => Except.error PassError.ioError

/-- Modelled from the spec, for comparison with the code: the nearest ancestor
directory (walking upward from `path`) whose `.gpg-id` entry is a regular
file, skipping ancestors where `.gpg-id` is absent or not a regular file. -/
def specNearestManifestFile (fs : FsNode) : Path → Option Path
  | [] =>
    match lookup fs [".gpg-id"] with
    | some (FsNode.file _) => some [".gpg-id"]
    | _ => none
  | a :: as =>
    match lookup fs ((a :: as) ++ [".gpg-id"]) with
    | some (FsNode.file _) => some ((a :: as) ++ [".gpg-id"])
    | _ => specNearestManifestFile fs (a :: as).dropLast
termination_by p => p.length
decreasing_by
  simp [List.length_dropLast]

/-- Modelled from the spec: trimming, i.e. removing leading and trailing
whitespace from a line. -/
def specTrim (s : String) : String :=
  String.mk (((s.data.dropWhile Char.isWhitespace).reverse.dropWhile
    Char.isWhitespace).reverse)

/-- Modelled from the spec, for comparison with the code: resolve the
manifest's non-empty lines after trimming, skipping empty lines. -/
def specManifestKeys (env : CryptoEnv) (ls : List String) : Except PassError (List Key) :=
  ((ls.map specTrim).filter (fun l => l ≠ "")).mapM (resolveLine env)

theorem look_for_keys_found_file (fs : FsNode) (path : Path) (ls : List String)
    (h : lookup fs (path ++ [".gpg-id"]) = some (FsNode.file ls)) :
    look_for_keys_file_from_dir fs path = Except.ok (path ++ [".gpg-id"]) := by
  cases path with
  | nil =>
    rw [List.nil_append] at h ⊢
    rw [look_for_keys_file_from_dir]
    simp only [List.nil_append]
    rw [h]
  | cons a as =>
    rw [look_for_keys_file_from_dir, h]

theorem look_for_keys_missing (fs : FsNode) (path : Path)
    (h : lookup fs (path ++ [".gpg-id"]) = none) (hne : path ≠ []) :
    look_for_keys_file_from_dir fs path =
      look_for_keys_file_from_dir fs path.dropLast := by
  cases path with
  | nil => exact absurd rfl hne
  | cons a as =>
    rw [look_for_keys_file_from_dir, h]

/-- The upward walk of `look_for_keys_file_from_dir`: if `.gpg-id` is absent
at the first `k` levels and present (as `node`) at level `k`, the walk stops
exactly there. -/
theorem look_for_keys_walk (fs : FsNode) :
    ∀ (k : Nat) (p : Path), k ≤ p.length →
      (∀ j, j < k → lookup fs ((List.dropLast^[j] p) ++ [".gpg-id"]) = none) →
      ∀ ls, lookup fs ((List.dropLast^[k] p) ++ [".gpg-id"]) = some (FsNode.file ls) →
      look_for_keys_file_from_dir fs p =
        Except.ok ((List.dropLast^[k] p) ++ [".gpg-id"]) := by
  intro k
  induction k with
  | zero =>
    intro p _ _ ls hfound
    simp only [Function.iterate_zero, id] at hfound ⊢
    exact look_for_keys_found_file fs p ls hfound
  | succ k ih =>
    intro p hk hnone ls hfound
    have hp0 : lookup fs (p ++ [".gpg-id"]) = none := by
      have := hnone 0 (Nat.succ_pos k)
      simpa using this
    have hpne : p ≠ [] := by
      intro h
      subst h
      simp at hk
    rw [look_for_keys_missing fs p hp0 hpne]
    have hlen : k ≤ p.dropLast.length := by
      simp only [List.length_dropLast]
      omega
    have hnone' : ∀ j, j < k →
        lookup fs ((List.dropLast^[j] p.dropLast) ++ [".gpg-id"]) = none := by
      intro j hj
      have := hnone (j + 1) (by omega)
      rw [Function.iterate_succ_apply] at this
      exact this
    have hfound' :
        lookup fs ((List.dropLast^[k] p.dropLast) ++ [".gpg-id"]) =
          some (FsNode.file ls) := by
      rw [← Function.iterate_succ_apply]
      exact hfound
    exact ih p.dropLast hlen hnone' ls hfound'

/-- C3 (amended): when the nearest ancestor directory containing an entry
named `.gpg-id` (walking upward from the secret file's parent, `k` levels up)
holds it as a regular file with line list `ls`, `encryption_keys` returns
exactly the handles resolved from those lines, in order — an expression
depending only on that one manifest's lines, so nothing is merged in from any
manifest further up the tree. (If the nearest `.gpg-id` entry is a directory
instead, the code fails with `InvalidStoreFormat` rather than continuing
upward; see the counterexample to the claim as stated.) -/
theorem encryption_keys_nearest_manifest (fs : FsNode) (env : CryptoEnv)
    (f : StoreFileRef) (k : Nat) (ls : List String)
    (hne : f.path ≠ [])
    (hk : k ≤ f.path.dropLast.length)
    (hnone : ∀ j, j < k →
      lookup fs ((List.dropLast^[j] f.path.dropLast) ++ [".gpg-id"]) = none)
    (hfound : lookup fs ((List.dropLast^[k] f.path.dropLast) ++ [".gpg-id"]) =
      some (FsNode.file ls))
    (hctx : env.ctx_ok = Except.ok ()) :
    StoreFileRef.encryption_keys fs env f = ls.mapM (resolveLine env) := by
  have hwalk := look_for_keys_walk fs k f.path.dropLast hk hnone ls hfound
  cases hfp : f.path with
  | nil => exact absurd hfp hne
  | cons a as =>
    rw [hfp] at hwalk hfound
    simp only [StoreFileRef.encryption_keys, hfp, hwalk, hctx, hfound]

/-- An engine that resolves every identifier to a key with that id. -/
def envResolveAll : CryptoEnv :=
  { ctx_ok := Except.ok ()
    get_key := fun s => Except.ok { id := s } }

/-- An engine that fails on the empty identifier and resolves all others. -/
def envPicky : CryptoEnv :=
  { ctx_ok := Except.ok ()
    get_key := fun s =>
      if s = "" then Except.error "no such key" else Except.ok { id := s } }

/-- Witness for `encryption_keys_nearest_manifest`: a secret two levels below
the store root, no `.gpg-id` in its own directory, a manifest `["k1", "k2"]`
one level up, and another manifest at the root; exactly the keys of the
nearer manifest are returned. -/
def fsInherit : FsNode :=
  FsNode.dir
    [("a", FsNode.dir
        [("b", FsNode.dir [("f.gpg", FsNode.file [])]),
         (".gpg-id", FsNode.file ["k1", "k2"])]),
     (".gpg-id", FsNode.file ["root-key"])]

/-- Witness for `encryption_keys_nearest_manifest` at the concrete
`fsInherit` store. -/
theorem encryption_keys_nearest_manifest_witness :
    StoreFileRef.encryption_keys fsInherit envResolveAll { path := ["a", "b", "f.gpg"] } =
      Except.ok [{ id := "k1" }, { id := "k2" }] := by
  have h := encryption_keys_nearest_manifest fsInherit envResolveAll
    { path := ["a", "b", "f.gpg"] } 1 ["k1", "k2"]
    (by decide) (by decide)
    (fun j hj => by
      have hj0 : j = 0 := Nat.lt_one_iff.mp hj
      subst hj0
      rfl)
    rfl rfl
  exact h.trans rfl

/-- The filesystem refuting C3 as stated: the secret's own directory holds a
`.gpg-id` that is a *directory*, and the nearest ancestor holding a `.gpg-id`
regular file is one level up. -/
def fsDirManifest : FsNode :=
  FsNode.dir
    [("a", FsNode.dir
        [("b", FsNode.dir
            [(".gpg-id", FsNode.dir []), ("f.gpg", FsNode.file [])]),
         (".gpg-id", FsNode.file ["k1"])])]

/-- C3 counterexample: for the file `a/b/f.gpg` in `fsDirManifest`, the
nearest ancestor directory containing a key-manifest *file* is `a` (with
resolvable identifier list `["k1"]`), so the claim says `encryption_keys`
returns exactly that handle list; but the code stops at `a/b`, whose
`.gpg-id` is a directory, and fails with `InvalidStoreFormat` instead. -/
theorem encryption_keys_nearest_manifest_claim_false :
    specNearestManifestFile fsDirManifest ["a", "b"] = some ["a", ".gpg-id"] ∧
    lookup fsDirManifest ["a", ".gpg-id"] = some (FsNode.file ["k1"]) ∧
    ["k1"].mapM (resolveLine envResolveAll) = Except.ok [{ id := "k1" }] ∧
    StoreFileRef.encryption_keys fsDirManifest envResolveAll
        { path := ["a", "b", "f.gpg"] } =
      Except.error
        (PassError.invalidStoreFormat ["a", "b", ".gpg-id"] gpgIdIsDirMsg) := by
  refine ⟨?_, rfl, rfl, ?_⟩
  · rw [specNearestManifestFile]
    simp [lookup, childNamed, fsDirManifest]
    rw [specNearestManifestFile]
    simp [lookup, childNamed, fsDirManifest]
  · simp [StoreFileRef.encryption_keys, look_for_keys_file_from_dir, lookup,
      childNamed, fsDirManifest]

/-- C4 (amended): once the nearest `.gpg-id` manifest file is found, its lines
are resolved through the engine one by one, in order, each line passed *as
is* — without trimming and without skipping empty lines — with the engine's
error returned if any line fails, and the full ordered handle list returned
otherwise. -/
theorem manifest_lines_resolved_raw (fs : FsNode) (env : CryptoEnv) (f : StoreFileRef)
    (keys_path : Path) (ls : List String)
    (hne : f.path ≠ [])
    (hfind : look_for_keys_file_from_dir fs f.path.dropLast = Except.ok keys_path)
    (hctx : env.ctx_ok = Except.ok ())
    (hfile : lookup fs keys_path = some (FsNode.file ls)) :
    StoreFileRef.encryption_keys fs env f = ls.mapM (resolveLine env) := by
  cases hfp : f.path with
  | nil => exact absurd hfp hne
  | cons a as =>
    rw [hfp] at hfind
    simp only [StoreFileRef.encryption_keys, hfp, hfind, hctx, hfile]

/-- Witness for `manifest_lines_resolved_raw`: a store whose root manifest
lists `k1` and `k2`; both resolve and both handles are returned in order. -/
theorem manifest_lines_resolved_raw_witness :
    StoreFileRef.encryption_keys
        (FsNode.dir [(".gpg-id", FsNode.file ["k1", "k2"]), ("s.gpg", FsNode.file [])])
        envResolveAll { path := ["s.gpg"] } =
      Except.ok [{ id := "k1" }, { id := "k2" }] := by
  have h := manifest_lines_resolved_raw
    (FsNode.dir [(".gpg-id", FsNode.file ["k1", "k2"]), ("s.gpg", FsNode.file [])])
    envResolveAll { path := ["s.gpg"] } [".gpg-id"] ["k1", "k2"]
    (by decide)
    (by
      rw [show (["s.gpg"] : Path).dropLast = [] from rfl]
      rw [look_for_keys_file_from_dir]
      rfl)
    rfl rfl
  exact h.trans rfl

/-- The filesystem refuting C4 as stated: the root manifest contains the line
`k1` followed by an empty line. -/
def fsEmptyLine : FsNode :=
  FsNode.dir [(".gpg-id", FsNode.file ["k1", ""]), ("secret.gpg", FsNode.file [])]

/-- C4 counterexample: the claim says empty manifest lines are skipped (after
trimming), so with an engine that resolves `k1` and rejects `""` the key list
`[k1]` should be returned; but the code feeds every line to the engine as is,
so it returns the engine's error for the empty line instead. -/
theorem manifest_empty_line_not_skipped :
    lookup fsEmptyLine [".gpg-id"] = some (FsNode.file ["k1", ""]) ∧
    specManifestKeys envPicky ["k1", ""] = Except.ok [{ id := "k1" }] ∧
    StoreFileRef.encryption_keys fsEmptyLine envPicky { path := ["secret.gpg"] } =
      Except.error (PassError.gpgError "no such key") := by
  refine ⟨rfl, ?_, ?_⟩
  · rfl
  · simp [StoreFileRef.encryption_keys, look_for_keys_file_from_dir, lookup,
      childNamed, fsEmptyLine, resolveLine, envPicky]
    rfl

/-! ## Logical names and retrieval (src/lib.rs `retrieve`,
src/store_entry.rs `name`/`verify`, src/utils.rs) -/

/-- `pass_name.to_string() + ".gpg"` at the path-segment level: appending the
suffix to the final segment (an empty name yields the single segment
`".gpg"`, exactly as the string concatenation does). -/
def appendGpg : List String → List String
  | [] => [".gpg"]
  | [s] => [s ++ ".gpg"]
  | s :: t :: rest => s :: appendGpg (t :: rest)

/-- Mirror of `utils::path2str` on a relative path: the textual form of the
path, segments joined by `/`. (The `PathDecodingError` case cannot arise in
the model, where all segments are text already.) -/
def path2str : Path → String
  | [] => ""
  | [s] => s
  | s :: t :: rest => s ++ "/" ++ path2str (t :: rest)

/-- Stripping a leading path off another path, at the segment level (the Rust prefix-stripping method on `Path`). -/
def strip_root : Path → Path → Option Path
  | [], p => some p
  | _ :: _, [] => none
  | r :: rs, s :: ps => if s = r then strip_root rs ps else none

/-- Mirror of `utils::abspath2relpath`: strip the store root off an absolute
path, failing with `InvalidStoreFormat` if the path is not under the root. -/
def abspath2relpath (root : Path) (p : Path) : Except PassError Path :=
  match strip_root root p with
  | some rel => Except.ok rel
  | none => Except.error (PassError.invalidStoreFormat p "Path is not inside password store")

/-- Rust `str::strip_suffix`: remove the suffix when present. -/
def strip_suffix (s suffix : String) : Option String :=
  if suffix.data.isSuffixOf s.data then
    some (String.mk (s.data.take (s.data.length - suffix.data.length)))
  else none

/-- Mirror of `StoreFileRef::name`: the path relative to the store root with
the `.gpg` suffix stripped. -/
def StoreFileRef.name (root : Path) (f : StoreFileRef) : Except PassError String :=
  match abspath2relpath root f.path with
  | Except.error e => Except.error e
  | Except.ok rel =>
    match strip_suffix (path2str rel) ".gpg" with
    | some n => Except.ok n
    | none =>
      Except.error (PassError.invalidStoreFormat f.path
        "File does not end with .gpg extension")

/-- Mirror of `StoreEntry::name`, dispatching to the directory/file rule. -/
def StoreEntry.name (root : Path) : StoreEntry → Except PassError String
  | StoreEntry.directory p _ =>
    match abspath2relpath root p with
    | Except.error e => Except.error e
    | Except.ok rel => Except.ok (path2str rel)
  | StoreEntry.file f => StoreFileRef.name root f

/-- Mirror of `StoreFileRef::verify`: the path exists, is a regular file and
has the `gpg` extension. -/
def StoreFileRef.verify (fs : FsNode) (f : StoreFileRef) : Except PassError Unit :=
  if pexists fs f.path && pis_file fs f.path &&
      (match pathExtension f.path with
       | none => false
       | some ext => ext == "gpg") then
    Except.ok ()
  else
    Except.error (PassError.invalidStoreFormat f.path
      "Path either does not exist, is not a regular file or does not have a .gpg extension")

/-- Mirror of `StoreDirectoryRef::verify`: the path exists and is a
directory. -/
def verify_directory (fs : FsNode) (p : Path) : Except PassError Unit :=
  if pexists fs p && pis_dir fs p then Except.ok ()
  else
    Except.error (PassError.invalidStoreFormat p
      "Path either does not exist or is not a directory")

/-- Mirror of `StoreEntry::verify`. -/
def StoreEntry.verify (fs : FsNode) : StoreEntry → Except PassError Unit
  | StoreEntry.directory p _ => verify_directory fs p
  | StoreEntry.file f => StoreFileRef.verify fs f

/-- Mirror of `retrieve(pass_name)` from src/lib.rs. The slash-separated
`pass_name` is taken in its split form, as the list of its segments. -/
def retrieve (fs : FsNode) (root : Path) (pass_name : List String) :
    Except PassError StoreEntry :=
  let dir_path := root ++ pass_name
  let file_path := root ++ appendGpg pass_name
  let result : Except PassError StoreEntry :=
    match pexists fs dir_path, pexists fs file_path with
    | true, true => Except.error (PassError.ambiguousPassName (path2str pass_name))
    | false, false => Except.error (PassError.entryNotFound (path2str pass_name))
    | true, false =>
      match list_and_map_folder fs dir_path with
      | Except.error e => Except.error e
      | Except.ok content => Except.ok (StoreEntry.directory dir_path content)
    | false, true => Except.ok (StoreEntry.file { path := file_path })
  match result with
  | Except.error e => Except.error e
  | Except.ok entry =>
    match StoreEntry.verify fs entry with
    | Except.error e => Except.error e
    | Except.ok _ => Except.ok entry

theorem strip_root_append (root : Path) : ∀ x, strip_root root (root ++ x) = some x := by
  induction root with
  | nil => intro x; rfl
  | cons r rs ih =>
    intro x
    simp [strip_root, ih]

theorem path2str_concat (a : String) :
    ∀ pre : List String,
      path2str (pre ++ [a]) = if pre = [] then a else path2str pre ++ "/" ++ a := by
  intro pre
  induction pre with
  | nil => simp [path2str]
  | cons s rest ih =>
    cases rest with
    | nil => simp [path2str]
    | cons t ts =>
      have hne : t :: ts ≠ ([] : List String) := by simp
      have hcons : ¬(s :: t :: ts = ([] : List String)) := by simp
      simp only [List.cons_append] at ih ⊢
      rw [path2str, ih, if_neg hne, if_neg hcons, path2str]
      simp [String.append_assoc]

theorem appendGpg_concat (a : String) :
    ∀ pre : List String, appendGpg (pre ++ [a]) = pre ++ [a ++ ".gpg"] := by
  intro pre
  induction pre with
  | nil => rfl
  | cons s rest ih =>
    cases rest with
    | nil => rfl
    | cons t ts =>
      simp only [List.cons_append] at ih ⊢
      rw [appendGpg, ih]

theorem strip_suffix_gpg (t : String) : strip_suffix (t ++ ".gpg") ".gpg" = some t := by
  have hsuf : (".gpg" : String).data.isSuffixOf (t ++ ".gpg").data = true := by
    rw [List.isSuffixOf_iff_suffix]
    exact List.suffix_append t.data (".gpg" : String).data
  rw [strip_suffix, if_pos hsuf]
  have hlen : (t ++ ".gpg").data.length - (".gpg" : String).data.length = t.data.length := by
    show (t.data ++ (".gpg" : String).data).length - _ = _
    simp
  rw [hlen]
  show some (String.mk ((t.data ++ (".gpg" : String).data).take t.data.length)) = some t
  rw [List.take_left]

theorem lastDotSplit_no_dot : ∀ ds : List Char, '.' ∉ ds → lastDotSplit ds = none := by
  intro ds
  induction ds with
  | nil => intro _; rfl
  | cons c rest ih =>
    intro h
    obtain ⟨h1, h2⟩ := not_or.mp (by simpa [List.mem_cons] using h)
    have hc : ¬(c = '.') := fun hh => h1 hh.symm
    simp [lastDotSplit, ih h2, hc]

theorem lastDotSplit_append (ds : List Char) (hds : '.' ∉ ds) :
    ∀ cs : List Char, lastDotSplit (cs ++ '.' :: ds) = some (cs, ds) := by
  intro cs
  induction cs with
  | nil => simp [lastDotSplit, lastDotSplit_no_dot ds hds]
  | cons c rest ih => simp [lastDotSplit, ih]

theorem rustExtension_gpg (l : String) (hl : l ≠ "") :
    rustExtension (l ++ ".gpg") = some "gpg" := by
  have hdata : (l ++ ".gpg").data = l.data ++ '.' :: ['g', 'p', 'g'] := rfl
  rw [rustExtension, hdata, lastDotSplit_append ['g', 'p', 'g'] (by decide) l.data]
  obtain ⟨ldata⟩ := l
  cases ldata with
  | nil => exact absurd rfl hl
  | cons c cd => rfl

theorem pathExtension_concat (base : Path) (a : String) :
    pathExtension (base ++ [a]) = rustExtension a := by
  rw [pathExtension, List.getLast?_concat]

theorem path2str_appendGpg (segs : List String) (h : segs ≠ []) :
    path2str (appendGpg segs) = path2str segs ++ ".gpg" := by
  obtain h0 | ⟨pre, last, rfl⟩ := segs.eq_nil_or_concat
  · exact absurd h0 h
  · rw [List.concat_eq_append, appendGpg_concat, path2str_concat, path2str_concat]
    by_cases hpre : pre = ([] : List String)
    · simp [hpre]
    · simp [hpre, String.append_assoc]

/-- C2 (amended): for a well-formed logical name (nonempty, no empty
segments), `retrieve` fails with `AmbiguousPassName` when both candidate
paths exist and with `EntryNotFound` when neither does; it returns a File
entry whose `name()` is the input name when the candidate file path holds a
*regular file* and the candidate directory path is absent; and it returns a
Directory entry whose `name()` is the input name when the candidate directory
path holds a directory *whose recursive listing succeeds* and the candidate
file path is absent. (When the candidate path exists with the wrong shape,
verification or listing fails and `retrieve` returns an error instead; see
the counterexample to the claim as stated.) -/
theorem retrieve_cases (fs : FsNode) (root : Path) (segs : List String)
    (hsegs : segs ≠ []) (hwf : ¬ "" ∈ segs) :
    (pexists fs (root ++ segs) = true → pexists fs (root ++ appendGpg segs) = true →
      retrieve fs root segs = Except.error (PassError.ambiguousPassName (path2str segs))) ∧
    (pexists fs (root ++ segs) = false → pexists fs (root ++ appendGpg segs) = false →
      retrieve fs root segs = Except.error (PassError.entryNotFound (path2str segs))) ∧
    (∀ c, lookup fs (root ++ appendGpg segs) = some (FsNode.file c) →
      lookup fs (root ++ segs) = none →
      retrieve fs root segs =
        Except.ok (StoreEntry.file { path := root ++ appendGpg segs }) ∧
      StoreEntry.name root (StoreEntry.file { path := root ++ appendGpg segs }) =
        Except.ok (path2str segs)) ∧
    (∀ ch content, lookup fs (root ++ segs) = some (FsNode.dir ch) →
      lookup fs (root ++ appendGpg segs) = none →
      list_folder_children (root ++ segs) ch = Except.ok content →
      retrieve fs root segs =
        Except.ok (StoreEntry.directory (root ++ segs) content) ∧
      StoreEntry.name root (StoreEntry.directory (root ++ segs) content) =
        Except.ok (path2str segs)) := by
  refine ⟨?_, ?_, ?_, ?_⟩
  · intro h1 h2
    simp only [retrieve, h1, h2]
  · intro h1 h2
    simp only [retrieve, h1, h2]
  · intro c hf hd
    have h1 : pexists fs (root ++ segs) = false := by simp [pexists, hd]
    have h2 : pexists fs (root ++ appendGpg segs) = true := by simp [pexists, hf]
    have hlast : ∃ pre last, segs = pre ++ [last] ∧ last ≠ "" := by
      obtain h0 | ⟨pre, last, rfl⟩ := segs.eq_nil_or_concat
      · exact absurd h0 hsegs
      · exact ⟨pre, last, List.concat_eq_append pre last,
          fun hl => hwf (by subst hl; simp)⟩
    obtain ⟨pre, last, hconc, hlastne⟩ := hlast
    have hext : pathExtension (root ++ appendGpg segs) = some "gpg" := by
      rw [hconc, appendGpg_concat, ← List.append_assoc, pathExtension_concat,
        rustExtension_gpg last hlastne]
    have hver : StoreFileRef.verify fs { path := root ++ appendGpg segs } =
        Except.ok () := by
      simp [StoreFileRef.verify, pexists, pis_file, hf, hext]
    constructor
    · simp only [retrieve, h1, h2, StoreEntry.verify, hver]
    · simp only [StoreEntry.name, StoreFileRef.name, abspath2relpath,
        strip_root_append]
      rw [path2str_appendGpg segs hsegs, strip_suffix_gpg]
  · intro ch content hd hf hlist
    have h1 : pexists fs (root ++ segs) = true := by simp [pexists, hd]
    have h2 : pexists fs (root ++ appendGpg segs) = false := by simp [pexists, hf]
    have hver : verify_directory fs (root ++ segs) = Except.ok () := by
      simp [verify_directory, pexists, pis_dir, hd]
    constructor
    · simp only [retrieve, h1, h2, list_and_map_folder, read_dir, hd, hlist,
        StoreEntry.verify, hver]
    · simp only [StoreEntry.name, abspath2relpath, strip_root_append]

/-- The filesystem refuting C2 as stated: the candidate file path `x.gpg`
exists, but as a directory. -/
def fsGpgDir : FsNode := FsNode.dir [("x.gpg", FsNode.dir [])]

/-- C2 counterexample: for the name `x` in `fsGpgDir`, only the candidate
file path exists, so the claim says `retrieve` returns a File entry; but the
existing node is a directory, verification fails, and `retrieve` returns an
`InvalidFormat` error instead. -/
theorem retrieve_file_claim_false :
    pexists fsGpgDir ([] ++ appendGpg ["x"]) = true ∧
    pexists fsGpgDir ([] ++ ["x"]) = false ∧
    retrieve fsGpgDir [] ["x"] =
      Except.error (PassError.invalidStoreFormat ["x.gpg"]
        "Path either does not exist, is not a regular file or does not have a .gpg extension") := by
  refine ⟨rfl, rfl, ?_⟩
  rfl

/-- A little store with a secret at the root and one in a subfolder. -/
def fsSimple : FsNode :=
  FsNode.dir
    [("secret-a.gpg", FsNode.file []),
     ("folder", FsNode.dir [("subsecret-a.gpg", FsNode.file [])])]

/-- Witness for `retrieve_cases`: retrieving `folder/subsecret-a` in
`fsSimple` yields the File entry for `folder/subsecret-a.gpg`, whose name is
the input name again. -/
theorem retrieve_cases_witness :
    retrieve fsSimple [] ["folder", "subsecret-a"] =
      Except.ok (StoreEntry.file { path := ["folder", "subsecret-a.gpg"] }) ∧
    StoreEntry.name [] (StoreEntry.file { path := ["folder", "subsecret-a.gpg"] }) =
      Except.ok "folder/subsecret-a" := by
  have h := (retrieve_cases fsSimple [] ["folder", "subsecret-a"]
    (by decide) (by decide)).2.2.1 [] rfl rfl
  exact ⟨h.1, h.2⟩

/-! ## File handle constructors (src/file_io.rs `CipherFile::new`,
`RwPlainFile::new`, `RoPlainFile::new`) -/

/-- Create an empty regular file at a path (used only to model what
`File::options().create(true)` *would* do, for contrast with the
create-disabled opens the code performs). -/
def insertEmptyFile : FsNode → Path → FsNode
  | FsNode.dir children, [seg] => FsNode.dir (children ++ [(seg, FsNode.file [])])
  | FsNode.dir children, seg :: rest =>
    FsNode.dir (children.map fun c =>
      if c.1 = seg then (c.1, insertEmptyFile c.2 rest) else c)
  | node, _ => node

/-- `File::options().read(true).write(true).create(create).open(path)`:
returns the resulting filesystem and the opened file's content. With
`create = false` a missing path is an io error; with `create = true` it would
be created empty. Opening an existing non-regular-file node fails. -/
def openWithCreate (create : Bool) (fs : FsNode) (p : Path) :
    Except PassError (FsNode × List String) :=
  match lookup fs p with
  | some (FsNode.file c) => Except.ok (fs, c)
  | some _ => Except.error PassError.ioError
  | none =>
    if create then Except.ok (insertEmptyFile fs p, [])
    else Except.error PassError.ioError

/-- `File::options().read(true).create(false).open(path)` as used by
`RoPlainFile::new`: read-only, creation disabled. -/
def openReadOnly (fs : FsNode) (p : Path) : Except PassError (List String) :=
  match lookup fs p with
  | some (FsNode.file c) => Except.ok c
  | _ => Except.error PassError.ioError

/-- The engine operations used on handle construction:
`utils::create_gpg_context()` and `gpgme::Context::decrypt` (ciphertext in
its stored form, plaintext as bytes). -/
structure DecryptEnv where
  ctx_ok : Except String Unit
  decrypt : List String → Except String (List Nat)

/-- Mirror of `CipherFile::new`: open the file read-write with creation
disabled; no decryption. -/
def CipherFile.new (fs : FsNode) (p : Path) : Except PassError (FsNode × List String) :=
  openWithCreate false fs p

/-- Mirror of `RwPlainFile::new`: open read-write with creation disabled,
then `load_and_decrypt` into the buffer, recording the decrypted content as
`last_synced_buffer` too. Returns the filesystem and the two buffers. -/
def RwPlainFile.new (env : DecryptEnv) (fs : FsNode) (p : Path) :
    Except PassError (FsNode × List Nat × List Nat) :=
  match openWithCreate false fs p with
  | Except.error e => Except.error e
  | Except.ok (fs', c) =>
    match env.ctx_ok with
    | Except.error e => Except.error (PassError.gpgError e)
    | Except.ok _ =>
      match env.decrypt c with
      | Except.error e => Except.error (PassError.gpgError e)
      | Except.ok plain => Except.ok (fs', plain, plain)

/-- Mirror of `RoPlainFile::new`: open read-only with creation disabled, then
decrypt into the exposed buffer. -/
def RoPlainFile.new (env : DecryptEnv) (fs : FsNode) (p : Path) :
    Except PassError (List Nat) :=
  match openReadOnly fs p with
  | Except.error e => Except.error e
  | Except.ok c =>
    match env.ctx_ok with
    | Except.error e => Except.error (PassError.gpgError e)
    | Except.ok _ =>
      match env.decrypt c with
      | Except.error e => Except.error (PassError.gpgError e)
      | Except.ok plain => Except.ok plain

/-- C10: for a path that names no existing file, all three handle
constructors fail with an io error, and none of them creates the file: the
create-disabled open they all use never modifies the filesystem, so a
missing secret is never silently materialized as an empty file. -/
theorem missing_file_never_created (fs : FsNode) (p : Path) (env : DecryptEnv)
    (h : lookup fs p = none) :
    CipherFile.new fs p = Except.error PassError.ioError ∧
    RwPlainFile.new env fs p = Except.error PassError.ioError ∧
    RoPlainFile.new env fs p = Except.error PassError.ioError ∧
    (∀ (fs2 : FsNode) (q : Path) (fs' : FsNode) (c : List String),
      openWithCreate false fs2 q = Except.ok (fs', c) → fs' = fs2) := by
  refine ⟨?_, ?_, ?_, ?_⟩
  · simp [CipherFile.new, openWithCreate, h]
  · simp [RwPlainFile.new, openWithCreate, h]
  · simp [RoPlainFile.new, openReadOnly, h]
  · intro fs2 q fs' c hop
    cases hlk : lookup fs2 q with
    | none => simp [openWithCreate, hlk] at hop
    | some node =>
      cases node with
      | file cf =>
        simp [openWithCreate, hlk] at hop
        exact hop.1.symm
      | dir ch => simp [openWithCreate, hlk] at hop
      | other => simp [openWithCreate, hlk] at hop

/-- Witness for `missing_file_never_created` at an empty store and the path
`nope.gpg`. -/
theorem missing_file_never_created_witness :
    CipherFile.new (FsNode.dir []) ["nope.gpg"] = Except.error PassError.ioError :=
  (missing_file_never_created (FsNode.dir []) ["nope.gpg"]
    { ctx_ok := Except.ok (), decrypt := fun _ => Except.ok [] } rfl).1

end LibPass
